import Mathlib

/-!
Verification development for the Solar pipeline (Snowyxa/Solar).

The Python sources `src/solar_pipeline.py` and `src/storage.py` are shallowly
embedded below:

* Python `datetime` values (always midnight-truncated in this code) are
  modelled as `ℤ` day counts since 1970-01-01, with the standard civil-calendar
  conversions `daysFromCivil` / `civilFromDays`; `datetime(y, m, d)` raising
  `ValueError` on an invalid date is modelled by `mkDate : ... → Option ℤ`.
* Python floats are modelled as `ℚ`; `round(x, n)` is modelled as decimal
  round-half-to-even at `n` digits (`roundTo`).
* The mutable `seen_dates : set` threaded through `parse_date` is modelled as a
  `Finset ℤ` passed and returned explicitly.
* pandas DataFrames persisted to CSV are modelled as `Option (List α)` (the
  file's row list, `none` when the file does not exist or is unreadable).
* Library calls that are external collaborators in the spec (HTTP fetch,
  BeautifulSoup HTML parsing, regex scanning of the page for radiation-total
  markers) are modelled by passing their results in as explicit arguments.
-/

namespace Solar

/-! ## Calendar arithmetic (Python `datetime`, midnight-truncated) -/

/-- Gregorian leap-year test, matching Python's `calendar`/`datetime` rules. -/
def isLeapYear (y : ℤ) : Prop := y % 4 = 0 ∧ (y % 100 ≠ 0 ∨ y % 400 = 0)

instance (y : ℤ) : Decidable (isLeapYear y) := by
  unfold isLeapYear; exact inferInstance

/-- Number of days in month `m` of year `y` (0 for an out-of-range month). -/
def daysInMonth (y : ℤ) (m : ℕ) : ℕ :=
  match m with
  | 1 => 31
  | 2 => if isLeapYear y then 29 else 28
  | 3 => 31
  | 4 => 30
  | 5 => 31
  | 6 => 30
  | 7 => 31
  | 8 => 31
  | 9 => 30
  | 10 => 31
  | 11 => 30
  | 12 => 31
  | _ => 0

/-- Validity of a `(year, month, day)` triple for Python's `datetime`
constructor (which also requires `MINYEAR = 1 ≤ year ≤ 9999 = MAXYEAR`). -/
@[reducible] def isValidDate (y : ℤ) (m d : ℕ) : Prop :=
  1 ≤ y ∧ y ≤ 9999 ∧ 1 ≤ m ∧ m ≤ 12 ∧ 1 ≤ d ∧ d ≤ daysInMonth y m

/-- Days since 1970-01-01 of the civil date `(y, m, d)` (Howard Hinnant's
`days_from_civil` algorithm, with floor division). -/
def daysFromCivil (y : ℤ) (m d : ℕ) : ℤ :=
  let yy : ℤ := if m ≤ 2 then y - 1 else y
  let era : ℤ := yy.fdiv 400
  let yoe : ℤ := yy - era * 400
  let mp : ℤ := (m : ℤ) + (if 2 < m then -3 else 9)
  let doy : ℤ := (153 * mp + 2).fdiv 5 + (d : ℤ) - 1
  let doe : ℤ := yoe * 365 + yoe.fdiv 4 - yoe.fdiv 100 + doy
  era * 146097 + doe - 719468

/-- Inverse of `daysFromCivil`: the `(year, month, day)` triple of a day count
(Howard Hinnant's `civil_from_days` algorithm). -/
def civilFromDays (z0 : ℤ) : ℤ × ℤ × ℤ :=
  let z := z0 + 719468
  let era := z.fdiv 146097
  let doe := z - era * 146097
  let yoe := (doe - doe.fdiv 1460 + doe.fdiv 36524 - doe.fdiv 146096).fdiv 365
  let y := yoe + era * 400
  let doy := doe - (365 * yoe + yoe.fdiv 4 - yoe.fdiv 100)
  let mp := (5 * doy + 2).fdiv 153
  let d := doy - (153 * mp + 2).fdiv 5 + 1
  let m := mp + (if mp < 10 then 3 else -9)
  (if m ≤ 2 then y + 1 else y, m, d)

/-- Model of Python's `datetime(year, month, day)`: `none` when the constructor
would raise `ValueError`, otherwise the day count of the date. -/
def mkDate (y : ℤ) (m d : ℕ) : Option ℤ :=
  if isValidDate y m d then some (daysFromCivil y m d) else none

/-- English weekday names indexed with 0 = Sunday, as produced by
`strftime('%A')`. -/
def weekdayNames : List String :=
  ["Sunday", "Monday", "Tuesday", "Wednesday", "Thursday", "Friday", "Saturday"]

/-- Weekday name of a day count (1970-01-01 was a Thursday), modelling
`date.strftime('%A')`. -/
def dayNameOf (z : ℤ) : String :=
  weekdayNames.getD ((z + 4).emod 7).toNat ""

/-! ## Decimal rounding (Python `round(x, n)`)

Python's `round` on floats rounds half to even in binary; on the decimal
quantities manipulated here we model it as exact decimal round-half-to-even
over `ℚ`. -/

/-- Round a rational to the nearest integer, ties to even.  The floor is
written as `num.fdiv den` (equal to `⌊q⌋` since the denominator is
positive). -/
def roundHalfEven (q : ℚ) : ℤ :=
  let f : ℤ := q.num.fdiv q.den
  let r : ℚ := q - (f : ℚ)
  if r < 1 / 2 then f
  else if 1 / 2 < r then f + 1
  else if f % 2 = 0 then f else f + 1

/-- Model of Python's `round(q, n)`: round to `n` decimal digits. -/
def roundTo (n : ℕ) (q : ℚ) : ℚ :=
  (roundHalfEven (q * 10 ^ n) : ℚ) / 10 ^ n

/-! ## Unit normalization (solar_pipeline.py lines 342-348)

`extract_forecast` converts the regex-captured value to kWh/m²; the unit tag
has already been lowercased (`match.group(2).lower()`), and the regex
guarantees it is one of `wh`, `kwh`, `mj`. -/

/-- Model of Python's `str.lower()` over the ASCII text handled here. -/
def lowerString (s : String) : String := ⟨s.data.map Char.toLower⟩

/-- Conversion of a captured radiation value to canonical kWh/m², exactly as
in the `if unit == 'kwh' / elif unit == 'mj' / else` chain of the source. -/
def convert_to_kwh (value : ℚ) (unit : String) : ℚ :=
  if unit = "kwh" then value
  else if unit = "mj" then value * 277.778 / 1000
  else value / 1000

/-- Forward multiplicative factor of the unit conversion: `convert_to_kwh v u`
equals `v * unitFactor u` for the recognized unit tags. Dividing by the same
factor is the inverse conversion the spec's round-trip property refers to. -/
def unitFactor (unit : String) : ℚ :=
  if unit = "kwh" then 1
  else if unit = "mj" then 277.778 / 1000
  else 1 / 1000

/-! ## Snapshot/history store (storage.py)

The CSV file at a path is modelled as `Option (List α)`: `none` when the file
does not exist (a corrupted existing file is read as an empty frame by the
source, which coincides with the `none` case after `Option.getD []`). The
`Bool` result mirrors the functions' return values. -/

/-- Model of `write_snapshot_csv` (storage.py lines 19-25): empty input is a
no-op returning `False`; otherwise the target is overwritten with exactly the
given records. -/
def write_snapshot_csv {α : Type} (records : List α) (target : Option (List α)) :
    Bool × Option (List α) :=
  if records.isEmpty then (false, target) else (true, some records)

/-- Model of pandas `drop_duplicates(subset, keep="last")`: keep a row exactly
when no later row has the same `key` projection (so the last row of each key
survives, in its original relative order). -/
def drop_duplicates_last {α κ : Type} [DecidableEq κ] (key : α → κ) :
    List α → List α
  | [] => []
  | x :: xs =>
    if xs.any fun y => decide (key y = key x) then drop_duplicates_last key xs
    else x :: drop_duplicates_last key xs

/-- Model of `upsert_history_csv` (storage.py lines 28-66) with the default
`keep="last"` used by the pipeline: load the existing rows (empty when the
file is missing or unreadable), append the new records, drop rows duplicated
on the identity columns keeping the later-arriving one, sort, persist.
`key` is the projection onto the `dedupe_subset` identity columns and `le` the
ordering induced by the `sort_by` columns. -/
def upsert_history_csv {α κ : Type} [DecidableEq κ] (key : α → κ)
    (le : α → α → Prop) [DecidableRel le]
    (records : List α) (store : Option (List α)) : Bool × Option (List α) :=
  if records.isEmpty then (false, store)
  else
    let df := store.getD [] ++ records
    (true, some (List.insertionSort le (drop_duplicates_last key df)))

/-- Number of rows in a persisted CSV (0 when the file does not exist). -/
def rowCount {α : Type} (store : Option (List α)) : ℕ :=
  (store.getD []).length

/-! ## Prognosis calculator (solar_pipeline.py lines 443-492) -/

/-- Snapshot of one day's extracted forecast (the dict built at lines
389-396 of `extract_forecast`; `Date` strings `YYYY-MM-DD` are carried as the
underlying day count, whose ordering and equality coincide with the
zero-padded string's). -/
structure DailyRec where
  date : ℤ
  dayName : String
  radKwh : ℚ
  radWh : ℚ
  source : String
  fetchedAt : String
deriving DecidableEq

/-- Configuration slice consumed by `calculate_battery_prognosis`, after the
`config.get(...)` default/fallback-key chains are resolved.  The panel
efficiency is kept raw: `num x` when `float(raw)` succeeds with value `x`,
`invalid` when it raises `TypeError`/`ValueError`. -/
inductive EffValue where
  | num (x : ℚ)
  | invalid
deriving DecidableEq

structure SolarConfig where
  panelCount : ℚ
  areaPerPanel : ℚ
  efficiencyRaw : EffValue
  systemEfficiency : ℚ
  batteryCount : ℚ
  capacityPerBattery : ℚ
  maxChargeRatePerBattery : ℚ
deriving DecidableEq

/-- Lines 453-457: `panel_eff = float(panel_eff_raw)` with fallback `0.20` on
`TypeError`/`ValueError`. -/
def coerce_panel_eff : EffValue → ℚ
  | .num x => x
  | .invalid => 0.20

/-- Lines 453-459: coercion followed by the legacy percent-style
normalization `if panel_eff > 1.0 and panel_eff <= 100.0: panel_eff /= 100`. -/
def normalize_panel_eff (e : EffValue) : ℚ :=
  let pe := coerce_panel_eff e
  if 1 < pe ∧ pe ≤ 100 then pe / 100 else pe

/-- One row of the battery prognosis (the dict built at lines 482-490). -/
structure PrognosisRec where
  date : ℤ
  dayName : String
  radKwh : ℚ
  radWh : ℚ
  panelCount : ℚ
  totalPanelArea : ℚ
  productionKwh : ℚ
  batteryCount : ℚ
  batteryCapacityKwh : ℚ
  chargePercentage : ℚ
deriving DecidableEq

/-- Model of `calculate_battery_prognosis` (lines 443-492). -/
def calculate_battery_prognosis (daily : List DailyRec) (cfg : SolarConfig) :
    List PrognosisRec :=
  let panel_eff := normalize_panel_eff cfg.efficiencyRaw
  let total_panel_area := cfg.areaPerPanel * cfg.panelCount
  let per_panel_yield_factor := cfg.areaPerPanel * panel_eff * cfg.systemEfficiency
  let total_battery_capacity := cfg.capacityPerBattery * cfg.batteryCount
  daily.map fun r =>
    let per_panel_prod := r.radKwh * per_panel_yield_factor
    let total_production := per_panel_prod * cfg.panelCount
    let charge_pct : ℚ :=
      if 0 < total_battery_capacity then
        min total_production total_battery_capacity / total_battery_capacity * 100
      else 0
    { date := r.date
      dayName := r.dayName
      radKwh := r.radKwh
      radWh := r.radWh
      panelCount := cfg.panelCount
      totalPanelArea := roundTo 3 total_panel_area
      productionKwh := roundTo 2 total_production
      batteryCount := cfg.batteryCount
      batteryCapacityKwh := roundTo 1 total_battery_capacity
      chargePercentage := roundTo 1 charge_pct }

/-! ## Date resolver (solar_pipeline.py lines 226-298, `parse_date`)

The regular-expression fragments used by `parse_date` are small and fixed, so
they are embedded directly as character-list scanners with the same leftmost,
greedy-with-backtracking semantics as Python `re.search`.  `\s` and `\d` are
modelled over their ASCII ranges (the scraped text is ASCII). -/

/-- ASCII whitespace, the `\s` class: space, tab, newline, CR, FF, VT. -/
def isSpaceChar (c : Char) : Bool :=
  c == ' ' || c == '\t' || c == '\n' || c == '\r' || c == '\x0c' || c == '\x0b'

def digitVal (c : Char) : ℕ := c.toNat - 48

def startsWithChars : List Char → List Char → Bool
  | [], _ => true
  | _ :: _, [] => false
  | p :: ps, c :: cs => p == c && startsWithChars ps cs

/-- Python's substring test `needle in haystack`. -/
def containsSub (p : List Char) : List Char → Bool
  | [] => startsWithChars p []
  | l@(_ :: rest) => startsWithChars p l || containsSub p rest

def dropSpaces (l : List Char) : List Char := l.dropWhile isSpaceChar

/-- Tail of the month pattern: given the text just after a month name, match
the regex suffix matching whitespace, an optional comma, whitespace, and a
greedy 1-2 digit day group, and return the day number. -/
def monthDayAfter (cs : List Char) : Option ℕ :=
  let cs1 := dropSpaces cs
  let cs2 := match cs1 with
    | ',' :: r => r
    | _ => cs1
  match dropSpaces cs2 with
  | c1 :: c2 :: _ =>
    if c1.isDigit then
      if c2.isDigit then some (10 * digitVal c1 + digitVal c2)
      else some (digitVal c1)
    else none
  | [c1] => if c1.isDigit then some (digitVal c1) else none
  | [] => none

/-- Model of `re.search` for the month pattern built at line 255: leftmost
occurrence of `name` that is followed by the day-number suffix. -/
def searchMonthDay (name : List Char) : List Char → Option ℕ
  | [] => none
  | l@(_ :: rest) =>
    match (if startsWithChars name l then monthDayAfter (l.drop name.length) else none) with
    | some d => some d
    | none => searchMonthDay name rest

/-- The `months` dict of lines 243-248, in Python insertion (iteration)
order: full names first, then the abbreviations (which omit `may`). -/
def monthsTable : List (List Char × ℕ) :=
  [("january".data, 1), ("february".data, 2), ("march".data, 3), ("april".data, 4),
   ("may".data, 5), ("june".data, 6), ("july".data, 7), ("august".data, 8),
   ("september".data, 9), ("october".data, 10), ("november".data, 11),
   ("december".data, 12),
   ("jan".data, 1), ("feb".data, 2), ("mar".data, 3), ("apr".data, 4),
   ("jun".data, 6), ("jul".data, 7), ("aug".data, 8), ("sep".data, 9),
   ("oct".data, 10), ("nov".data, 11), ("dec".data, 12)]

/-- Year inference of lines 259-264: next year exactly when the month is
before the current month, or it is the current month with an earlier day. -/
def yearFor (today : ℤ) (mnum d : ℕ) : ℤ :=
  let c := civilFromDays today
  if (mnum : ℤ) < c.2.1 ∨ ((mnum : ℤ) = c.2.1 ∧ (d : ℤ) < c.2.2) then c.1 + 1
  else c.1

/-- The month-name loop of lines 251-271: first dict entry whose name occurs
in the lowered text followed by a day number, whose inferred date is a valid
calendar date (else `ValueError` is swallowed) and is not yet claimed. -/
def tryMonths (today : ℤ) (seen : Finset ℤ) (tl : List Char) :
    List (List Char × ℕ) → Option ℤ
  | [] => none
  | (name, mnum) :: rest =>
    if containsSub name tl then
      match searchMonthDay name tl with
      | some d =>
        match mkDate (yearFor today mnum d) mnum d with
        | some date =>
          if date ∉ seen then some date else tryMonths today seen tl rest
        | none => tryMonths today seen tl rest
      | none => tryMonths today seen tl rest
    else tryMonths today seen tl rest

/-- Reader for an exact-length digit group (`\d{4}`). -/
def readExactDigits : ℕ → ℕ → List Char → Option (ℕ × List Char)
  | 0, acc, l => some (acc, l)
  | _ + 1, _, [] => none
  | n + 1, acc, c :: r =>
    if c.isDigit then readExactDigits n (10 * acc + digitVal c) r else none

/-- Greedy `\d{1,2}` with no following constraint. -/
def read12 : List Char → Option ℕ
  | [] => none
  | [c1] => if c1.isDigit then some (digitVal c1) else none
  | c1 :: c2 :: _ =>
    if c1.isDigit then
      if c2.isDigit then some (10 * digitVal c1 + digitVal c2)
      else some (digitVal c1)
    else none

/-- Candidate matches of `\d{1,2}` followed by the literal `sep`, in greedy
backtracking order (two digits preferred), with the rest after the
separator. -/
def splits12 (sep : Char) : List Char → List (ℕ × List Char)
  | c1 :: c2 :: c3 :: r =>
    (if c1.isDigit && c2.isDigit && (c3 == sep) then
      [(10 * digitVal c1 + digitVal c2, r)] else []) ++
    (if c1.isDigit && (c2 == sep) then [(digitVal c1, c3 :: r)] else [])
  | [c1, c2] => if c1.isDigit && (c2 == sep) then [(digitVal c1, [])] else []
  | _ => []

/-- Anchored match of `(\d{4})-(\d{1,2})-(\d{1,2})` at the head of `l`,
returning the three groups. -/
def matchYMDAt (l : List Char) : Option (ℕ × ℕ × ℕ) :=
  match readExactDigits 4 0 l with
  | some (y, '-' :: r1) =>
    (splits12 '-' r1).findSome? fun md => (read12 md.2).map fun d => (y, md.1, d)
  | _ => none

/-- Anchored match of `(\d{1,2})sep(\d{1,2})sep(\d{4})` at the head of `l`,
returning the three groups in order. -/
def matchDMYAt (sep : Char) (l : List Char) : Option (ℕ × ℕ × ℕ) :=
  (splits12 sep l).findSome? fun p1 =>
    (splits12 sep p1.2).findSome? fun p2 =>
      (readExactDigits 4 0 p2.2).map fun yr => (p1.1, p2.1, yr.1)

/-- Model of `re.search`: leftmost position where the anchored matcher `f`
succeeds. -/
def searchPat (f : List Char → Option (ℕ × ℕ × ℕ)) : List Char → Option (ℕ × ℕ × ℕ)
  | [] => none
  | l@(_ :: rest) =>
    match f l with
    | some g => some g
    | none => searchPat f rest

/-- Guard of lines 283-288 applied to one numeric-pattern match: build the
date (`ValueError` → `none`), accept only dates `>= today` that are
unclaimed; any failure falls through to the next pattern. -/
def acceptNumericDate (today : ℤ) (seen : Finset ℤ) (y m d : ℕ) : Option ℤ :=
  match mkDate (y : ℤ) m d with
  | some date => if today ≤ date ∧ date ∉ seen then some date else none
  | none => none

/-- The numeric-pattern loop of lines 273-290, trying `YYYY-MM-DD`,
`DD/MM/YYYY`, `DD-MM-YYYY` in order (each via its leftmost match only). -/
def tryNumeric (today : ℤ) (seen : Finset ℤ) (text : List Char) : Option ℤ :=
  match (searchPat matchYMDAt text).bind
      (fun g => acceptNumericDate today seen g.1 g.2.1 g.2.2) with
  | some date => some date
  | none =>
    match (searchPat (matchDMYAt '/') text).bind
        (fun g => acceptNumericDate today seen g.2.2 g.2.1 g.1) with
    | some date => some date
    | none =>
      (searchPat (matchDMYAt '-') text).bind
        fun g => acceptNumericDate today seen g.2.2 g.2.1 g.1

/-- The fallback loop of lines 292-296: `today + index` days, incrementing
the offset while the candidate is already claimed. -/
def fallbackDate (today : ℤ) (seen : Finset ℤ) (index : ℕ) : ℤ :=
  if h : (today + (index : ℤ)) ∈ seen then fallbackDate today seen (index + 1)
  else today + (index : ℤ)
termination_by (seen.filter fun d => today + (index : ℤ) ≤ d).card
decreasing_by
  apply Finset.card_lt_card
  rw [Finset.ssubset_def]
  constructor
  · intro d hd
    simp only [Finset.mem_filter] at hd ⊢
    refine ⟨hd.1, ?_⟩
    have h2 := hd.2
    push_cast at h2 ⊢
    omega
  · intro hsub
    have h1 : today + (index : ℤ) ∈ seen.filter (fun d => today + (index : ℤ) ≤ d) := by
      simp only [Finset.mem_filter]
      exact ⟨h, le_refl _⟩
    have h2 := hsub h1
    simp only [Finset.mem_filter] at h2
    push_cast at h2
    omega

/-- Model of `parse_date` (lines 226-298).  The mutated `seen_dates` set is
returned alongside the resolved date. -/
def parse_date (text : String) (today : ℤ) (index : ℕ) (seen : Finset ℤ) :
    ℤ × Finset ℤ :=
  let tl := text.data.map Char.toLower
  if containsSub "today".data tl ∧ today ∉ seen then
    (today, insert today seen)
  else if ¬ (containsSub "today".data tl : Bool)
      ∧ (containsSub "tomorrow".data tl : Bool) ∧ (today + 1) ∉ seen then
    (today + 1, insert (today + 1) seen)
  else
    match tryMonths today seen tl monthsTable with
    | some date => (date, insert date seen)
    | none =>
      match tryNumeric today seen text.data with
      | some date => (date, insert date seen)
      | none =>
        let d := fallbackDate today seen index
        (d, insert d seen)

/-- Successive calls to `parse_date` within one run, threading the
`seen_dates` set: one `(text, index)` pair per marker context. -/
def resolveAll (today : ℤ) : List (String × ℕ) → Finset ℤ → List ℤ × Finset ℤ
  | [], s => ([], s)
  | (t, i) :: rest, s =>
    let p := parse_date t today i s
    let q := resolveAll today rest p.2
    (p.1 :: q.1, q.2)

/-! ## Forecast extractor (solar_pipeline.py lines 301-440, `extract_forecast`)

The collaborator calls at the head of `extract_forecast` are modelled as
inputs: `matches` stands for the list of regex matches of the daily-total
marker pattern (text position, captured numeric value, lowercased unit tag,
and the bounded context window preceding the match, lines 313-316 and
350-352), and `dateMap` for the position → date mapping built from the
structured date-header elements (lines 321-333).  The hourly sub-extraction
(lines 406-418) only appends to the separate `hourly_data` list and never
touches the daily records, so it is not modelled here. -/

structure RadMatch where
  pos : ℕ
  value : ℚ
  unitTag : String
  context : String
deriving DecidableEq

structure ExtractState where
  daily : List DailyRec
  seen : Finset ℤ
  lastParsed : ℤ

/-- Lines 327-333 also add every header date to `seen_dates`. -/
def initialSeen (dateMap : List (ℕ × ℤ)) : Finset ℤ :=
  dateMap.foldl (fun s pd => insert pd.2 s) ∅

/-- Lines 358-364: the header date at the largest position strictly before
the match position, if any. -/
def closestDate (dateMap : List (ℕ × ℤ)) (matchPos : ℕ) : Option ℤ :=
  (dateMap.foldl (fun acc pd =>
      if pd.1 < matchPos then
        match acc with
        | none => some pd
        | some best => if best.1 < pd.1 then some pd else acc
      else acc) (none : Option (ℕ × ℤ))).map Prod.snd

/-- The record dict built at lines 389-396 for a resolved date and converted
value. -/
def mkDailyRec (parsed : ℤ) (value_kwh : ℚ) (fetchedAt : String) : DailyRec :=
  { date := parsed
    dayName := dayNameOf parsed
    radKwh := roundTo 6 value_kwh
    radWh := roundTo 2 (value_kwh * 1000)
    source := "tutiempo.net"
    fetchedAt := fetchedAt }

/-- Body of the per-match loop (lines 338-403), daily-record part. -/
def extractStep (today : ℤ) (fetchedAt : String) (dateMap : List (ℕ × ℤ))
    (st : ExtractState) (m : RadMatch) : ExtractState :=
  let value_kwh := convert_to_kwh m.value m.unitTag
  let pr : ℤ × Finset ℤ :=
    match closestDate dateMap m.pos with
    | some d => (d, st.seen)
    | none =>
      let fallback_index := (st.lastParsed - today + 1).toNat
      parse_date m.context today fallback_index st.seen
  let parsed := pr.1
  let lastParsed := if st.lastParsed < parsed then parsed else st.lastParsed
  let rec0 : DailyRec := mkDailyRec parsed value_kwh fetchedAt
  let daily :=
    match st.daily.findIdx? (fun r => decide (r.date = parsed)) with
    | some i =>
      if value_kwh > (st.daily.getD i rec0).radKwh then st.daily.set i rec0
      else st.daily
    | none => st.daily ++ [rec0]
  { daily := daily, seen := pr.2, lastParsed := lastParsed }

/-- Lines 422-427: residual duplicate-date removal, keeping the first
record of each date. -/
def dedupKeepFirst (s : Finset ℤ) : List DailyRec → List DailyRec
  | [] => []
  | r :: rest =>
    if r.date ∈ s then dedupKeepFirst s rest
    else r :: dedupKeepFirst (insert r.date s) rest

/-- Ordering used by `daily_data.sort(key=lambda x: x['Date'])`; comparing
the zero-padded `YYYY-MM-DD` strings is comparing the day counts. -/
def dateLe (a b : DailyRec) : Prop := a.date ≤ b.date

instance : DecidableRel dateLe := fun a b =>
  inferInstanceAs (Decidable (a.date ≤ b.date))

instance : IsTotal DailyRec dateLe := ⟨fun a b => le_total a.date b.date⟩

instance : IsTrans DailyRec dateLe := ⟨fun _ _ _ => le_trans⟩

/-- Lines 420-438: sort ascending by date, drop residual duplicate dates
keeping the first, and recompute `DayName` from the date (the `strptime` of a
`strftime`-produced string never raises, so the `except ValueError` branch is
dead). -/
def postProcessDaily (daily : List DailyRec) : List DailyRec :=
  let sorted := List.insertionSort dateLe daily
  let uniq := dedupKeepFirst ∅ sorted
  uniq.map fun r => { r with dayName := dayNameOf r.date }

/-- Daily-record result of `extract_forecast`, as a function of the
collaborator-produced marker matches and header date map. -/
def extract_forecast_daily (dateMap : List (ℕ × ℤ)) (markers : List RadMatch)
    (today : ℤ) (fetchedAt : String) : List DailyRec :=
  let st0 : ExtractState :=
    { daily := [], seen := initialSeen dateMap, lastParsed := today - 1 }
  postProcessDaily (markers.foldl (extractStep today fetchedAt dateMap) st0).daily

/-! ## Helper lemmas -/

/-- Characterization of the fallback loop: it returns `today + k` for the
least offset `k ≥ index` whose date is unclaimed. -/
theorem fallbackDate_spec (today : ℤ) (seen : Finset ℤ) (index : ℕ) :
    ∃ k : ℕ, index ≤ k ∧ fallbackDate today seen index = today + (k : ℤ) ∧
      (today + (k : ℤ)) ∉ seen ∧
      ∀ j : ℕ, index ≤ j → j < k → (today + (j : ℤ)) ∈ seen := by
  induction index using fallbackDate.induct today seen with
  | case1 index h ih =>
    obtain ⟨k, hk1, hk2, hk3, hk4⟩ := ih
    refine ⟨k, by omega, ?_, hk3, ?_⟩
    · rw [fallbackDate, dif_pos h]
      exact hk2
    · intro j hj1 hj2
      rcases Nat.eq_or_lt_of_le hj1 with hj | hj
      · rw [hj] at h
        exact h
      · exact hk4 j hj hj2
  | case2 index h =>
    refine ⟨index, le_refl _, ?_, h, ?_⟩
    · rw [fallbackDate, dif_neg h]
    · intro j hj1 hj2
      omega

/-- The length of `drop_duplicates_last` is the number of distinct keys. -/
theorem length_drop_duplicates_last {α κ : Type} [DecidableEq κ] (key : α → κ)
    (l : List α) :
    (drop_duplicates_last key l).length = (l.map key).toFinset.card := by
  induction l with
  | nil => simp [drop_duplicates_last]
  | cons x xs ih =>
    have hcond : (xs.any fun y => decide (key y = key x)) = true ↔
        key x ∈ (xs.map key).toFinset := by
      simp only [List.any_eq_true, decide_eq_true_eq, List.mem_toFinset,
        List.mem_map]
    rw [drop_duplicates_last]
    by_cases h : key x ∈ (xs.map key).toFinset
    · rw [if_pos (hcond.mpr h), ih]
      simp [List.toFinset_cons, Finset.insert_eq_self.2 h]
    · rw [if_neg (fun hc => h (hcond.mp hc))]
      simp only [List.length_cons, ih, List.map_cons, List.toFinset_cons]
      rw [Finset.card_insert_of_not_mem (by simpa using h)]

/-- `drop_duplicates_last` preserves the set of keys. -/
theorem toFinset_map_drop_duplicates_last {α κ : Type} [DecidableEq κ]
    (key : α → κ) (l : List α) :
    ((drop_duplicates_last key l).map key).toFinset = (l.map key).toFinset := by
  induction l with
  | nil => simp [drop_duplicates_last]
  | cons x xs ih =>
    have hcond : (xs.any fun y => decide (key y = key x)) = true ↔
        key x ∈ (xs.map key).toFinset := by
      simp only [List.any_eq_true, decide_eq_true_eq, List.mem_toFinset,
        List.mem_map]
    rw [drop_duplicates_last]
    by_cases h : key x ∈ (xs.map key).toFinset
    · rw [if_pos (hcond.mpr h), ih]
      simp [List.toFinset_cons, Finset.insert_eq_self.2 h]
    · rw [if_neg (fun hc => h (hcond.mp hc))]
      simp [List.toFinset_cons, ih]

/-- The month-name loop only returns unclaimed dates. -/
theorem tryMonths_not_mem (today : ℤ) (seen : Finset ℤ) (tl : List Char) :
    ∀ (L : List (List Char × ℕ)) (d : ℤ),
      tryMonths today seen tl L = some d → d ∉ seen := by
  intro L
  induction L with
  | nil =>
    intro d h
    cases h
  | cons p rest ih =>
    intro d h
    obtain ⟨name, mnum⟩ := p
    rw [tryMonths] at h
    by_cases hc : containsSub name tl = true
    · rw [if_pos hc] at h
      cases hs : searchMonthDay name tl with
      | none =>
        simp only [hs] at h
        exact ih d h
      | some dd =>
        simp only [hs] at h
        cases hm : mkDate (yearFor today mnum dd) mnum dd with
        | none =>
          simp only [hm] at h
          exact ih d h
        | some date =>
          simp only [hm] at h
          by_cases hmem : date ∉ seen
          · rw [if_pos hmem] at h
            obtain rfl : date = d := Option.some.inj h
            exact hmem
          · rw [if_neg hmem] at h
            exact ih d h
    · rw [if_neg hc] at h
      exact ih d h

/-- The numeric-pattern loop only returns unclaimed dates. -/
theorem tryNumeric_not_mem (today : ℤ) (seen : Finset ℤ) (text : List Char)
    (d : ℤ) (h : tryNumeric today seen text = some d) : d ∉ seen := by
  have haccept : ∀ y m dd dt, acceptNumericDate today seen y m dd = some dt →
      dt ∉ seen := by
    intro y m dd dt hacc
    rw [acceptNumericDate] at hacc
    cases hm : mkDate (y : ℤ) m dd with
    | none =>
      simp only [hm] at hacc
      cases hacc
    | some date =>
      simp only [hm] at hacc
      by_cases hcond : today ≤ date ∧ date ∉ seen
      · rw [if_pos hcond] at hacc
        obtain rfl : date = dt := Option.some.inj hacc
        exact hcond.2
      · rw [if_neg hcond] at hacc
        cases hacc
  have hbind : ∀ (o : Option (ℕ × ℕ × ℕ)) (f : ℕ × ℕ × ℕ → Option ℤ),
      (∀ g dt, f g = some dt → dt ∉ seen) → o.bind f = some d → d ∉ seen := by
    intro o f hf ho
    cases o with
    | none => cases ho
    | some g => exact hf g d ho
  rw [tryNumeric] at h
  cases h1 : ((searchPat matchYMDAt text).bind
      fun g => acceptNumericDate today seen g.1 g.2.1 g.2.2) with
  | some dt =>
    simp only [h1] at h
    obtain rfl : dt = d := Option.some.inj h
    exact hbind _ _ (fun g dt2 hg => haccept _ _ _ _ hg) h1
  | none =>
    simp only [h1] at h
    cases h2 : ((searchPat (matchDMYAt '/') text).bind
        fun g => acceptNumericDate today seen g.2.2 g.2.1 g.1) with
    | some dt =>
      simp only [h2] at h
      obtain rfl : dt = d := Option.some.inj h
      exact hbind _ _ (fun g dt2 hg => haccept _ _ _ _ hg) h2
    | none =>
      simp only [h2] at h
      exact hbind _ _ (fun g dt2 hg => haccept _ _ _ _ hg) h

/-- Postconditions of one `parse_date` call: the returned date was not
claimed, and the returned set is the input set with exactly that date
added. -/
theorem parse_date_spec (text : String) (today : ℤ) (index : ℕ)
    (seen : Finset ℤ) :
    (parse_date text today index seen).1 ∉ seen ∧
    (parse_date text today index seen).2 =
      insert (parse_date text today index seen).1 seen := by
  simp only [parse_date]
  by_cases h1 : containsSub "today".data (List.map Char.toLower text.data) = true ∧
      today ∉ seen
  · rw [if_pos h1]
    exact ⟨h1.2, rfl⟩
  · rw [if_neg h1]
    by_cases h2 : ¬ containsSub "today".data (List.map Char.toLower text.data) = true ∧
        containsSub "tomorrow".data (List.map Char.toLower text.data) = true ∧
        today + 1 ∉ seen
    · rw [if_pos h2]
      exact ⟨h2.2.2, rfl⟩
    · rw [if_neg h2]
      cases hm : tryMonths today seen (List.map Char.toLower text.data) monthsTable with
      | some date =>
        simp only [hm]
        exact ⟨tryMonths_not_mem today seen _ monthsTable date hm, trivial⟩
      | none =>
        simp only [hm]
        cases hn : tryNumeric today seen text.data with
        | some date =>
          simp only [hn]
          exact ⟨tryNumeric_not_mem today seen _ date hn, trivial⟩
        | none =>
          simp only [hn]
          obtain ⟨k, hk1, hk2, hk3, hk4⟩ := fallbackDate_spec today seen index
          refine ⟨?_, trivial⟩
          show fallbackDate today seen index ∉ seen
          rw [hk2]
          exact hk3

/-- Threading the set through a run: no returned date was in the starting
set, the returned dates are pairwise distinct, and the set only grows. -/
theorem resolveAll_spec (today : ℤ) :
    ∀ (calls : List (String × ℕ)) (s : Finset ℤ),
      (∀ d ∈ (resolveAll today calls s).1, d ∉ s) ∧
      (resolveAll today calls s).1.Nodup ∧
      s ⊆ (resolveAll today calls s).2 := by
  intro calls
  induction calls with
  | nil =>
    intro s
    refine ⟨?_, ?_, ?_⟩
    · intro d hd
      cases hd
    · exact List.nodup_nil
    · exact Finset.Subset.refl s
  | cons c rest ih =>
    intro s
    obtain ⟨t, i⟩ := c
    have hp := parse_date_spec t today i s
    obtain ⟨ihmem, ihnodup, ihsub⟩ := ih (parse_date t today i s).2
    have hgrow : s ⊆ (parse_date t today i s).2 := by
      rw [hp.2]
      exact Finset.subset_insert _ s
    have hself : (parse_date t today i s).1 ∈ (parse_date t today i s).2 := by
      rw [hp.2]
      exact Finset.mem_insert_self _ s
    refine ⟨?_, ?_, ?_⟩
    · intro d hd
      rcases List.mem_cons.mp hd with rfl | hd2
      · exact hp.1
      · intro hds
        exact ihmem d hd2 (hgrow hds)
    · refine List.nodup_cons.mpr ⟨?_, ihnodup⟩
      intro hin
      exact ihmem _ hin hself
    · exact hgrow.trans ihsub

/-- The residual duplicate-date pass returns a sublist of its input. -/
theorem dedupKeepFirst_sublist (s : Finset ℤ) (l : List DailyRec) :
    List.Sublist (dedupKeepFirst s l) l := by
  induction l generalizing s with
  | nil => exact List.Sublist.refl _
  | cons r rest ih =>
    rw [dedupKeepFirst]
    by_cases h : r.date ∈ s
    · rw [if_pos h]
      exact (ih s).cons r
    · rw [if_neg h]
      exact (ih (insert r.date s)).cons₂ r

/-- The residual duplicate-date pass yields pairwise-distinct dates, none of
them in the starting exclusion set. -/
theorem dedupKeepFirst_nodup (l : List DailyRec) :
    ∀ s : Finset ℤ,
      ((dedupKeepFirst s l).map (fun r => r.date)).Nodup ∧
      ∀ r ∈ dedupKeepFirst s l, r.date ∉ s := by
  induction l with
  | nil =>
    intro s
    constructor
    · exact List.nodup_nil
    · intro r h
      cases h
  | cons r rest ih =>
    intro s
    rw [dedupKeepFirst]
    by_cases h : r.date ∈ s
    · rw [if_pos h]
      exact ih s
    · rw [if_neg h]
      obtain ⟨ihnodup, ihnotmem⟩ := ih (insert r.date s)
      refine ⟨?_, ?_⟩
      · rw [List.map_cons, List.nodup_cons]
        refine ⟨?_, ihnodup⟩
        intro hmem
        obtain ⟨x, hx, hxd⟩ := List.mem_map.mp hmem
        exact ihnotmem x hx (hxd ▸ Finset.mem_insert_self r.date s)
      · intro x hx
        rcases List.mem_cons.mp hx with rfl | hx2
        · exact h
        · intro hxs
          exact ihnotmem x hx2 (Finset.mem_insert_of_mem hxs)

/-- The post-processing pass of `extract_forecast`: dates strictly ascending
(hence sorted and pairwise distinct) and `DayName` recomputed from the
date. -/
theorem postProcessDaily_spec (daily : List DailyRec) :
    List.Sorted (fun a b : ℤ => a < b)
      ((postProcessDaily daily).map fun r => r.date) ∧
    ∀ r ∈ postProcessDaily daily, r.dayName = dayNameOf r.date := by
  have hsorted : List.Sorted dateLe (List.insertionSort dateLe daily) :=
    List.sorted_insertionSort dateLe daily
  have hsub : List.Sublist (dedupKeepFirst ∅ (List.insertionSort dateLe daily))
      (List.insertionSort dateLe daily) :=
    dedupKeepFirst_sublist ∅ _
  have hle : (dedupKeepFirst ∅ (List.insertionSort dateLe daily)).Pairwise dateLe :=
    hsorted.sublist hsub
  have hnodup :
      ((dedupKeepFirst ∅ (List.insertionSort dateLe daily)).map
        (fun r => r.date)).Nodup :=
    (dedupKeepFirst_nodup (List.insertionSort dateLe daily) ∅).1
  have hne : (dedupKeepFirst ∅ (List.insertionSort dateLe daily)).Pairwise
      (fun a b => a.date ≠ b.date) :=
    List.pairwise_map.mp hnodup
  have hlt : (dedupKeepFirst ∅ (List.insertionSort dateLe daily)).Pairwise
      (fun a b => a.date < b.date) :=
    (hle.and hne).imp fun hab => lt_of_le_of_ne hab.1 hab.2
  constructor
  · have hmapeq : (postProcessDaily daily).map (fun r => r.date) =
        (dedupKeepFirst ∅ (List.insertionSort dateLe daily)).map
          (fun r => r.date) := by
      simp only [postProcessDaily, List.map_map]
      rfl
    rw [hmapeq]
    exact List.pairwise_map.mpr hlt
  · intro r hr
    obtain ⟨x, hx, rfl⟩ := List.mem_map.mp hr
    rfl

/-- One marker resolved through the header map whose date is not yet in the
accumulator: a fresh record is appended (lines 357-367, 381-403). -/
theorem extractStep_header_new (today : ℤ) (fetchedAt : String)
    (dateMap : List (ℕ × ℤ)) (st : ExtractState) (m : RadMatch) (D : ℤ)
    (h : closestDate dateMap m.pos = some D)
    (hnone : st.daily.findIdx? (fun r => decide (r.date = D)) = none) :
    extractStep today fetchedAt dateMap st m =
      { daily := st.daily ++
          [mkDailyRec D (convert_to_kwh m.value m.unitTag) fetchedAt],
        seen := st.seen,
        lastParsed := if st.lastParsed < D then D else st.lastParsed } := by
  simp only [extractStep, h, hnone]

/-- One marker resolved through the header map onto the single record already
accumulated for the same date: the stored record is replaced exactly when the
new reading is strictly larger (lines 398-403). -/
theorem extractStep_header_update_single (today : ℤ) (fetchedAt : String)
    (dateMap : List (ℕ × ℤ)) (r1 : DailyRec) (m : RadMatch) (D : ℤ)
    (seen : Finset ℤ) (lastP : ℤ)
    (h : closestDate dateMap m.pos = some D) (hdate : r1.date = D) :
    extractStep today fetchedAt dateMap
      { daily := [r1], seen := seen, lastParsed := lastP } m =
      { daily :=
          (if r1.radKwh < convert_to_kwh m.value m.unitTag then
            [mkDailyRec D (convert_to_kwh m.value m.unitTag) fetchedAt]
          else [r1]),
        seen := seen,
        lastParsed := if lastP < D then D else lastP } := by
  simp only [extractStep, h, List.findIdx?_cons, hdate, decide_True,
    List.findIdx?_nil, if_true, List.getD_cons_zero, List.set_cons_zero]

/-- Post-processing a single record only recomputes its day name. -/
theorem postProcessDaily_singleton (r : DailyRec) :
    postProcessDaily [r] = [{ r with dayName := dayNameOf r.date }] := by
  simp [postProcessDaily, List.insertionSort, List.orderedInsert, dedupKeepFirst]

/-! ## Claims -/

/-- Claim C1: within one run, each `parse_date` call returns a date not in
the threaded `already_used` set at call time and returns the set with that
date inserted, so the dates returned by successive calls are pairwise
distinct. -/
theorem parse_date_unique_per_run (today : ℤ) :
    (∀ (text : String) (index : ℕ) (seen : Finset ℤ),
        (parse_date text today index seen).1 ∉ seen ∧
        (parse_date text today index seen).2 =
          insert (parse_date text today index seen).1 seen) ∧
    ∀ (calls : List (String × ℕ)) (seen : Finset ℤ),
      ((resolveAll today calls seen).1).Nodup :=
  ⟨fun text index seen => parse_date_spec text today index seen,
   fun calls seen => (resolveAll_spec today calls seen).2.1⟩

/-- Claim C4: `write_snapshot_csv` with an empty record list is a no-op that
leaves the target file exactly as it was (in particular a target holding `N`
rows keeps them); with a non-empty list it fully overwrites the target with
exactly those records. -/
theorem write_snapshot_frame {α : Type} (records : List α)
    (target : Option (List α)) :
    (records = [] → (write_snapshot_csv records target).2 = target) ∧
    (records ≠ [] → (write_snapshot_csv records target).2 = some records) := by
  constructor
  · intro h
    subst h
    rfl
  · intro h
    rw [write_snapshot_csv, if_neg (by simpa using h)]

/-- Witness for C4 at a concrete 3-row target: the empty write keeps the 3
rows, the non-empty write replaces them. -/
theorem write_snapshot_frame_witness :
    (write_snapshot_csv ([] : List ℕ) (some [10, 11, 12])).2 = some [10, 11, 12] ∧
    (write_snapshot_csv [4] (some [10, 11, 12])).2 = some [4] :=
  ⟨(write_snapshot_frame [] (some [10, 11, 12])).1 rfl,
   (write_snapshot_frame [4] (some [10, 11, 12])).2 (by simp)⟩

/-- Claim C7: for the recognized unit tags (after the source's lowercasing),
the conversion multiplies by the documented factor -- `1` for kwh,
`277.778 / 1000` for mj, `1 / 1000` for wh -- and dividing by the same factor
recovers the original value exactly (hence within any floating tolerance). -/
theorem convert_to_kwh_round_trip (v : ℚ) (u : String)
    (hu : lowerString u ∈ (["wh", "kwh", "mj"] : List String)) :
    convert_to_kwh v (lowerString u) = v * unitFactor (lowerString u) ∧
    convert_to_kwh v (lowerString u) / unitFactor (lowerString u) = v := by
  simp only [List.mem_cons, List.not_mem_nil, or_false] at hu
  rcases hu with h | h | h <;> rw [h]
  · have e1 : convert_to_kwh v "wh" = v / 1000 := rfl
    have e2 : unitFactor "wh" = 1 / 1000 := rfl
    refine ⟨by rw [e1, e2]; ring, ?_⟩
    rw [e1, e2]
    field_simp
  · have e1 : convert_to_kwh v "kwh" = v := rfl
    have e2 : unitFactor "kwh" = 1 := rfl
    exact ⟨by rw [e1, e2]; ring, by rw [e1, e2, div_one]⟩
  · have e1 : convert_to_kwh v "mj" = v * 277.778 / 1000 := rfl
    have e2 : unitFactor "mj" = 277.778 / 1000 := rfl
    refine ⟨by rw [e1, e2]; ring, ?_⟩
    rw [e1, e2]
    field_simp

/-- Witness for C7 at `v = 42`, `u = "MJ"` (exercising case-insensitivity). -/
theorem convert_to_kwh_round_trip_witness :
    convert_to_kwh 42 (lowerString "MJ") = 42 * unitFactor (lowerString "MJ") ∧
    convert_to_kwh 42 (lowerString "MJ") / unitFactor (lowerString "MJ") = 42 :=
  convert_to_kwh_round_trip 42 "MJ" (by decide)

/-- Claim C8: panel efficiency given as a fraction (0-1) is used unchanged, a
legacy percent-like value in (1, 100] is divided by 100, and a value not
coercible to a number falls back to the default 0.20 (the calculator never
aborts). -/
theorem normalize_panel_eff_spec :
    (∀ x : ℚ, 0 ≤ x → x ≤ 1 → normalize_panel_eff (.num x) = x) ∧
    (∀ x : ℚ, 1 < x → x ≤ 100 → normalize_panel_eff (.num x) = x / 100) ∧
    normalize_panel_eff .invalid = 0.20 := by
  refine ⟨?_, ?_, ?_⟩
  · intro x h0 h1
    rw [normalize_panel_eff]
    show (if 1 < x ∧ x ≤ 100 then x / 100 else x) = x
    rw [if_neg]
    rintro ⟨hgt, -⟩
    linarith
  · intro x h1 h100
    rw [normalize_panel_eff]
    show (if 1 < x ∧ x ≤ 100 then x / 100 else x) = x / 100
    rw [if_pos ⟨h1, h100⟩]
  · rw [normalize_panel_eff]
    show (if (1 : ℚ) < 0.20 ∧ (0.20 : ℚ) ≤ 100 then (0.20 : ℚ) / 100 else 0.20) = 0.20
    rw [if_neg]
    rintro ⟨hgt, -⟩
    norm_num at hgt

/-- Witness for C8: the legacy value 20 normalizes to 0.20. -/
theorem normalize_panel_eff_witness :
    normalize_panel_eff (.num 20) = 0.20 :=
  (normalize_panel_eff_spec.2.1 20 (by norm_num) (by norm_num)).trans (by norm_num)

unseal Rat.ofScientific Rat.mul Rat.inv Rat.add Rat.sub in
/-- Claim C3: the charge percentage is `min(total_production, capacity) /
capacity * 100` (rounded to one decimal at the serialization boundary) when
the total battery capacity is positive, and 0 when it is zero. -/
theorem charge_percentage_spec (r : DailyRec) (cfg : SolarConfig) :
    (0 < cfg.capacityPerBattery * cfg.batteryCount →
      (calculate_battery_prognosis [r] cfg).map (fun p => p.chargePercentage) =
        [roundTo 1 (min
            (r.radKwh * (cfg.areaPerPanel * normalize_panel_eff cfg.efficiencyRaw *
              cfg.systemEfficiency) * cfg.panelCount)
            (cfg.capacityPerBattery * cfg.batteryCount) /
          (cfg.capacityPerBattery * cfg.batteryCount) * 100)]) ∧
    (cfg.capacityPerBattery * cfg.batteryCount = 0 →
      (calculate_battery_prognosis [r] cfg).map (fun p => p.chargePercentage) = [0]) := by
  constructor
  · intro h
    simp [calculate_battery_prognosis, if_pos h]
  · intro h
    have : ¬ (0 : ℚ) < cfg.capacityPerBattery * cfg.batteryCount := by
      rw [h]
      exact lt_irrefl 0
    simp only [calculate_battery_prognosis, List.map_cons, List.map_nil, if_neg this]
    decide

/-- Sample record and configuration realizing the claim's concrete instance:
total production 15 kWh against a 10 kWh battery bank. -/
def sampleDaily : DailyRec :=
  { date := 20000, dayName := "x", radKwh := 15, radWh := 15000,
    source := "s", fetchedAt := "f" }

def sampleCfg : SolarConfig :=
  { panelCount := 1, areaPerPanel := 1, efficiencyRaw := .num 1,
    systemEfficiency := 1, batteryCount := 1, capacityPerBattery := 10,
    maxChargeRatePerBattery := 5 }

unseal Rat.ofScientific Rat.mul Rat.inv Rat.add Rat.sub in
/-- Witness for C3: capacity 10 kWh and production 15 kWh give exactly 100.0,
not 150. -/
theorem charge_percentage_witness :
    (calculate_battery_prognosis [sampleDaily] sampleCfg).map
      (fun p => p.chargePercentage) = [100] :=
  ((charge_percentage_spec sampleDaily sampleCfg).1 (by norm_num [sampleCfg])).trans
    (by decide)

/-- Claim C10: the index-based fallback terminates on every finite
already-used set (the function below is total), returns an unclaimed date,
and that date is `reference_date + k` days for the least offset `k` at or
above the supplied index whose date is unclaimed. -/
theorem fallbackDate_terminates_minimal (today : ℤ) (seen : Finset ℤ)
    (index : ℕ) :
    fallbackDate today seen index ∉ seen ∧
    ∃ k : ℕ, index ≤ k ∧ fallbackDate today seen index = today + (k : ℤ) ∧
      ∀ j : ℕ, index ≤ j → j < k → (today + (j : ℤ)) ∈ seen := by
  obtain ⟨k, h1, h2, h3, h4⟩ := fallbackDate_spec today seen index
  refine ⟨?_, k, h1, h2, h4⟩
  rw [h2]
  exact h3

/-- Claim C2: re-upserting a record set whose identity-column projection is
unchanged (only volatile columns such as `FetchedAt` differ, and those are
excluded from `dedupe_subset`) leaves the history row count unchanged. -/
theorem upsert_history_idempotent {α κ : Type} [DecidableEq κ] (key : α → κ)
    (le : α → α → Prop) [DecidableRel le] (store : Option (List α))
    (r1 r2 : List α) (hkeys : r2.map key = r1.map key) :
    rowCount (upsert_history_csv key le r2 (upsert_history_csv key le r1 store).2).2 =
      rowCount (upsert_history_csv key le r1 store).2 := by
  by_cases h1 : r1.isEmpty
  · have h2 : r2.isEmpty := by
      rw [List.isEmpty_iff] at h1 ⊢
      have hk := hkeys
      rw [h1, List.map_nil, List.map_eq_nil_iff] at hk
      exact hk
    simp only [upsert_history_csv, if_pos h1, if_pos h2]
  · have h2 : ¬ r2.isEmpty := by
      rw [List.isEmpty_iff] at h1 ⊢
      intro hc
      rw [hc, List.map_nil] at hkeys
      exact h1 (List.map_eq_nil_iff.mp hkeys.symm)
    simp only [upsert_history_csv, if_neg h1, if_neg h2]
    simp only [rowCount, Option.getD_some]
    rw [List.length_insertionSort, List.length_insertionSort]
    rw [length_drop_duplicates_last, length_drop_duplicates_last]
    congr 1
    rw [List.map_append, List.toFinset_append]
    have hsortset : ((List.insertionSort le
        (drop_duplicates_last key (store.getD [] ++ r1))).map key).toFinset =
        ((store.getD [] ++ r1).map key).toFinset := by
      rw [List.toFinset_eq_of_perm _ _
        (List.Perm.map key (List.perm_insertionSort le _))]
      exact toFinset_map_drop_duplicates_last key _
    rw [hsortset, hkeys, List.map_append, List.toFinset_append,
      Finset.union_assoc, Finset.union_self]

set_option maxRecDepth 4000 in
/-- Claim C5: the month-name strategy infers the year as the reference year,
rolling to the next year exactly when the month/day combination is strictly
before the reference date's month/day (the condition of lines 259-264); with
reference date 2026-12-20, "January 5" resolves to 2027-01-05 and
"December 25" to 2026-12-25; an invalid calendar date such as Feb 30 is
silently rejected, falling through (here to the index fallback, since
"february 30" matches no other strategy). -/
theorem month_name_resolution_spec :
    (∀ (today : ℤ) (m d : ℕ),
        yearFor today m d = (civilFromDays today).1 + 1 ↔
          ((m : ℤ) < (civilFromDays today).2.1 ∨
            ((m : ℤ) = (civilFromDays today).2.1 ∧
              (d : ℤ) < (civilFromDays today).2.2))) ∧
    parse_date "January 5" (daysFromCivil 2026 12 20) 0 ∅ =
      (daysFromCivil 2027 1 5, {daysFromCivil 2027 1 5}) ∧
    parse_date "December 25" (daysFromCivil 2026 12 20) 0 ∅ =
      (daysFromCivil 2026 12 25, {daysFromCivil 2026 12 25}) ∧
    parse_date "february 30" (daysFromCivil 2026 12 20) 0 ∅ =
      (daysFromCivil 2026 12 20, {daysFromCivil 2026 12 20}) := by
  refine ⟨?_, ?_, ?_, ?_⟩
  · intro today m d
    simp only [yearFor]
    by_cases hcond : (m : ℤ) < (civilFromDays today).2.1 ∨
        ((m : ℤ) = (civilFromDays today).2.1 ∧
          (d : ℤ) < (civilFromDays today).2.2)
    · rw [if_pos hcond]
      exact iff_of_true rfl hcond
    · rw [if_neg hcond]
      exact iff_of_false (by omega) hcond
  · decide
  · decide
  · have hfb : fallbackDate (daysFromCivil 2026 12 20) (∅ : Finset ℤ) 0 =
        daysFromCivil 2026 12 20 := by
      rw [fallbackDate, dif_neg (by simp)]
      simp
    simp only [parse_date]
    rw [if_neg (by decide), if_neg (by decide)]
    rw [show tryMonths (daysFromCivil 2026 12 20) ∅
        (List.map Char.toLower "february 30".data) monthsTable = none by decide]
    rw [show tryNumeric (daysFromCivil 2026 12 20) ∅ "february 30".data = none
      by decide]
    rw [hfb]
    rfl

/-- Concrete row shape for the C2 witness: `(Date, FetchedAt)` pairs whose
identity projection is the date only. -/
def rowKey (p : ℕ × ℕ) : ℕ := p.1

def rowLe (a b : ℕ × ℕ) : Prop := a.1 ≤ b.1

instance : DecidableRel rowLe := fun a b =>
  inferInstanceAs (Decidable (a.1 ≤ b.1))

/-- Witness for C2: re-upserting the same logical row with a different
`FetchedAt` value leaves the row count at 1. -/
theorem upsert_history_idempotent_witness :
    rowCount (upsert_history_csv rowKey rowLe [(1, 200)]
        (upsert_history_csv rowKey rowLe [(1, 100)] none).2).2 =
      rowCount (upsert_history_csv rowKey rowLe [(1, 100)] none).2 :=
  upsert_history_idempotent rowKey rowLe none [(1, 100)] [(1, 200)] (by decide)

/-- Claim C9: every daily list produced by the extractor has strictly
ascending dates (sorted, pairwise distinct — residual duplicates dropped
keep-first), and every record's `DayName` is recomputed from its date, never
taken from page text. -/
theorem extract_forecast_daily_invariants (dateMap : List (ℕ × ℤ))
    (markers : List RadMatch) (today : ℤ) (fetchedAt : String) :
    List.Sorted (fun a b : ℤ => a < b)
      ((extract_forecast_daily dateMap markers today fetchedAt).map
        fun r => r.date) ∧
    ∀ r ∈ extract_forecast_daily dateMap markers today fetchedAt,
      r.dayName = dayNameOf r.date :=
  postProcessDaily_spec
    ((markers.foldl (extractStep today fetchedAt dateMap)
      { daily := [], seen := initialSeen dateMap, lastParsed := today - 1 }).daily)

/-- Claim C6: two markers of one run resolving (via the structured date-header
map) to the same date `D` collapse to a single record for `D`, keeping the
larger radiation value.  The hypotheses `roundTo 6 a = a` and
`roundTo 6 b = b` state that the two converted readings are exact at the
stored 6-decimal precision (as in the claim's 3.0 / 3.5 example). -/
theorem duplicate_marker_collapse (dateMap : List (ℕ × ℤ)) (m1 m2 : RadMatch)
    (today D : ℤ) (fetchedAt : String) (a b : ℚ)
    (h1 : closestDate dateMap m1.pos = some D)
    (h2 : closestDate dateMap m2.pos = some D)
    (ha : convert_to_kwh m1.value m1.unitTag = a)
    (hb : convert_to_kwh m2.value m2.unitTag = b)
    (hra : roundTo 6 a = a) (hrb : roundTo 6 b = b) :
    (extract_forecast_daily dateMap [m1, m2] today fetchedAt).map
      (fun r => r.date) = [D] ∧
    (extract_forecast_daily dateMap [m1, m2] today fetchedAt).map
      (fun r => r.radKwh) = [max a b] := by
  have hstep1 := extractStep_header_new today fetchedAt dateMap
    { daily := [], seen := initialSeen dateMap, lastParsed := today - 1 }
    m1 D h1 rfl
  have hrecdate : (mkDailyRec D (convert_to_kwh m1.value m1.unitTag)
      fetchedAt).date = D := rfl
  have hstep2 := extractStep_header_update_single today fetchedAt dateMap
    (mkDailyRec D (convert_to_kwh m1.value m1.unitTag) fetchedAt) m2 D
    (initialSeen dateMap) (if today - 1 < D then D else today - 1) h2 hrecdate
  have hfold : extract_forecast_daily dateMap [m1, m2] today fetchedAt =
      postProcessDaily (extractStep today fetchedAt dateMap
        (extractStep today fetchedAt dateMap
          { daily := [], seen := initialSeen dateMap, lastParsed := today - 1 }
          m1) m2).daily := rfl
  rw [hfold, hstep1]
  simp only [List.nil_append]
  rw [hstep2]
  simp only [ha, hb]
  have hstored : (mkDailyRec D a fetchedAt).radKwh = a := hra
  rw [hstored]
  by_cases hab : a < b
  · rw [if_pos hab, postProcessDaily_singleton]
    rw [max_eq_right hab.le]
    constructor
    · rfl
    · show [roundTo 6 b] = [b]
      rw [hrb]
  · rw [if_neg hab, postProcessDaily_singleton]
    rw [max_eq_left (not_lt.mp hab)]
    constructor
    · rfl
    · show [roundTo 6 a] = [a]
      rw [hra]

/-- Concrete inputs for the C6 witness: one header at position 0 mapping to
day 20100, two markers after it reading 3.0 and 3.5 kWh/m². -/
def headerMapC6 : List (ℕ × ℤ) := [(0, 20100)]

def markerA : RadMatch := { pos := 1, value := 3, unitTag := "kwh", context := "" }

def markerB : RadMatch := { pos := 2, value := 7/2, unitTag := "kwh", context := "" }

unseal Rat.mul Rat.inv Rat.add Rat.sub in
/-- Witness for C6: readings 3.0 and 3.5 for the same date collapse to one
record holding 3.5. -/
theorem duplicate_marker_collapse_witness :
    (extract_forecast_daily headerMapC6 [markerA, markerB] 20000 "t").map
      (fun r => r.date) = [20100] ∧
    (extract_forecast_daily headerMapC6 [markerA, markerB] 20000 "t").map
      (fun r => r.radKwh) = [7/2] := by
  have h := duplicate_marker_collapse headerMapC6 markerA markerB 20000 20100
    "t" 3 (7/2) (by decide) (by decide) (by decide) (by decide)
    (by decide) (by decide)
  exact ⟨h.1, h.2.trans (by decide)⟩

end Solar
